import Mathlib

/-!
Verification development for `imagespace_smqtk/server/smqtk_iqr.py` (class
`SmqtkIqr`): the IQR session reconciliation, refine and result-merge logic.

The Python handler talks to three external collaborators:
  - the SMQTK ranking engine (`POST /session`, `PUT /refine`, `GET /get_results`),
  - the Girder item store holding one durable record per session
    (`self.model('item').findOne({'meta.sid': sid})`),
  - the Solr document index (`solr_documents_from_field`).

The embedding models the engine as explicit state (the set of live sessions
with their label sets), the durable store as a list of records, and the two
read-only collaborators (`get_results`, Solr) as oracle functions carried in a
`World`.  Each outward call made by the handler is recorded as an `Event`, so
that claims about which calls are issued, and in which order, are statable.
Confidence scores (JSON numbers) are modelled as `Rat`; checksums as `String`
compared by code point, which is exactly how Python compares `str` values.
-/

/-- Checksum field of a Solr document, `document['sha1sum_s_md']`: either a
single checksum string or a list of checksums (duplicate-group case). -/
inductive ShaField where
  | scalar (s : String)
  | list (l : List String)
deriving DecidableEq, Repr

/-- Representative checksum of a checksum field, per lines 171-174 and 180 of
the source: the value itself when it is a scalar, the first element when it is
a list (`document['sha1sum_s_md'][0]`).  Python raises `IndexError` on an empty
list; that case is `none`. -/
def ShaField.representative : ShaField → Option String
  | .scalar s => some s
  | .list l => l.head?

/-- Solr index document.  Real documents carry many fields; the merge logic
reads only `sha1sum_s_md`, so only that field is modelled. -/
structure Doc where
  sha1sum_s_md : ShaField
deriving DecidableEq, Repr

/-- Document with its attached `smqtk_iqr_confidence` value (lines 170-174). -/
structure RankedDoc where
  doc : Doc
  smqtk_iqr_confidence : Rat
deriving DecidableEq, Repr

/-- Return value of the `results` endpoint (lines 176-182): the dict
`{'numFound': resp['total_results'], 'docs': sorted(...)}`.  `numFound` is the
total-result count taken from the engine response. -/
structure Page where
  numFound : Nat
  docs : List RankedDoc
deriving DecidableEq, Repr

/-- Durable Girder session record: the item named by the session id whose
metadata may carry `pos_uuids` and `neg_uuids` keys.  A missing metadata key is
modelled as `none` (reading it raises `KeyError` in Python). -/
structure SessionMeta where
  sid : String
  pos_uuids : Option (List String)
  neg_uuids : Option (List String)
deriving DecidableEq, Repr

/-- State of the external SMQTK engine: the live sessions, each with the label
sets last pushed by a refine (a fresh session starts with empty labels). -/
structure EngineState where
  sessions : List (String × List String × List String)
deriving DecidableEq, Repr

/-- Response of `GET /get_results` (line 150-154): `total_results` plus the
ranked `[checksum, confidence]` pairs.  A response missing the `results` key is
modelled with `results = none`; reading it raises `KeyError` in Python. -/
structure EngineResp where
  total_results : Nat
  results : Option (List (String × Rat))
deriving DecidableEq, Repr

/-- Outward calls made by the handler, in the order they are issued, plus the
diagnostic log line of line 167-168.  `logError sid` stands for
`logger.error('SID %s: There are SMQTK descriptors that have no corresponding
Solr document(s).' % sid)`; note the message identifies only the session. -/
inductive Event where
  | postSession (sid : String)
  | putRefine (sid : String) (pos neg : List String)
  | getResults (sid : String) (i j : Int)
  | solrQuery (shas : List String)
  | logError (sid : String)
deriving DecidableEq, Repr

/-- Environment of one `results` request: current engine state, durable store
contents, and the two read-only collaborators as oracles. -/
structure World where
  engine : EngineState
  store : List SessionMeta
  getResults : String → Int → Int → EngineResp
  solr : List String → List Doc

/-- Outcome of a `results` request: the response (or the uncaught Python
exception as `Except.error`), the trace of outward calls, and the final engine
state. -/
structure RunResult where
  response : Except String Page
  events : List Event
  engine : EngineState

/-- Test whether a session id is live in the engine. -/
def engineHas (e : EngineState) (sid : String) : Bool :=
  (e.sessions.find? (fun p => p.1 == sid)).isSome

/-- Engine behaviour of `POST /session` with a caller-supplied sid (spec 4.1 and
6): non-2xx (`false`) if the sid is already live, otherwise the session is
created with empty labels and the response is 2xx (`true`). -/
def postSession (e : EngineState) (sid : String) : Bool × EngineState :=
  if engineHas e sid then (false, e)
  else (true, ⟨(sid, [], []) :: e.sessions⟩)

/-- Engine behaviour of `PUT /refine` (spec 4.2): the label sets of the session
are replaced, not merged. -/
def putRefine (e : EngineState) (sid : String) (pos neg : List String) : EngineState :=
  ⟨e.sessions.map (fun p => if p.1 == sid then (sid, pos, neg) else p)⟩

/-- Label sets the engine currently holds for a session id. -/
def lookupLabels (e : EngineState) (sid : String) : Option (List String × List String) :=
  (e.sessions.find? (fun p => p.1 == sid)).map (fun p => p.2)

/-- Lines 130-135: `return not requests.post(self.search_url + '/session',
data={'sid': params['sid']}).ok` ­— the existence check issues a create and
reports the session live exactly when that create fails.  The returned state is
the engine state after the create attempt. -/
def sid_exists (e : EngineState) (sid : String) : Bool × EngineState :=
  (!(postSession e sid).1, (postSession e sid).2)

/-- Lines 109-120, `_refine`: force-create the engine session, then submit the
replacement label sets.  The durable store is passed through untouched — the
handler performs no store write on this path — and the trace records the two
engine calls. -/
def _refine (e : EngineState) (store : List SessionMeta) (sid : String)
    (pos neg : List String) : EngineState × List SessionMeta × List Event :=
  (putRefine (postSession e sid).2 sid pos neg, store,
    [Event.postSession sid, Event.putRefine sid pos neg])

/-- Comparison of two characters by code point, as Python compares the
characters of a `str`. -/
def charLt (a b : Char) : Bool :=
  decide (a.toNat < b.toNat)

/-- Lexicographic comparison of two character sequences by code point: the
Python `<` on `str` values. -/
def strLt : List Char → List Char → Bool
  | [], [] => false
  | [], _ :: _ => true
  | _ :: _, [] => false
  | a :: as, b :: bs =>
    if charLt a b then true
    else if charLt b a then false
    else strLt as bs

/-- Strict comparison of two Python sort keys `(confidence, checksum)` as
compared by Python tuple `<`: confidence first, checksum string second. -/
def keyLt (p q : Rat × String) : Bool :=
  decide (p.1 < q.1) || (decide (p.1 = q.1) && strLt p.2.data q.2.data)

/-- Representative checksum recomputed in the sort key of lines 179-180:
`x['sha1sum_s_md'][0] if isinstance(x['sha1sum_s_md'], list) else
x['sha1sum_s_md']`.  Documents that reached the sort always have a
representative (their confidence lookup succeeded), so the empty-list default
is never exercised there. -/
def repChecksum (x : RankedDoc) : String :=
  match x.doc.sha1sum_s_md.representative with
  | some s => s
  | none => ""

/-- Sort key of line 179-180: `(x['smqtk_iqr_confidence'], representative)`. -/
def sortKey (x : RankedDoc) : Rat × String :=
  (x.smqtk_iqr_confidence, repChecksum x)

/-- Ordering used for `sorted(..., key=..., reverse=True)` on line 178-181: `x`
may precede `y` exactly when the key of `x` is not strictly below the key of
`y`.  A stable sort by this relation is descending by key with ties left in
input order, which is what the Python call produces. -/
def mergeLe (x y : RankedDoc) : Prop :=
  keyLt (sortKey x) (sortKey y) = false

instance : DecidableRel mergeLe :=
  fun _ _ => inferInstanceAs (Decidable (_ = false))

/-- Line 165: `confidenceValues = dict(resp['results'])`.  A Python dict built
from a pair list maps each key to the value of its last occurrence; lookup of
an absent key raises `KeyError`, modelled as `none`. -/
def dictOf (l : List (String × Rat)) : String → Option Rat :=
  l.foldl (fun m p => fun k => if p.1 == k then some p.2 else m k) (fun _ => none)

/-- Test of the failure condition of lines 170-174 for one document: its
representative checksum is missing (empty checksum list) or has no entry in the
confidence mapping. -/
def docConfMissing (conf : String → Option Rat) (d : Doc) : Bool :=
  match d.sha1sum_s_md.representative with
  | none => true
  | some sha => (conf sha).isNone

/-- Lines 170-174: attach `smqtk_iqr_confidence` to each document in order.
The first document with an empty checksum list raises `IndexError`; the first
whose representative checksum is absent from the mapping raises `KeyError`.
Neither exception is caught by the handler. -/
def attachConf (conf : String → Option Rat) : List Doc → Except String (List RankedDoc)
  | [] => Except.ok []
  | d :: ds =>
    match d.sha1sum_s_md.representative with
    | none => Except.error "IndexError"
    | some sha =>
      match conf sha with
      | none => Except.error "KeyError"
      | some c =>
        match attachConf conf ds with
        | Except.error msg => Except.error msg
        | Except.ok rest => Except.ok (⟨d, c⟩ :: rest)

/-- Lines 162-182 given a present `resp['results']` list `rl` and the resolved
documents: build the confidence mapping, emit the single length-mismatch
diagnostic of lines 167-168 when fewer documents than ranked entries were
resolved, attach confidences (which may raise), and return the page sorted by
`(confidence, representative checksum)` descending with `total_results` as
`numFound`. -/
def mergeResults (sid : String) (total_results : Nat) (rl : List (String × Rat))
    (documents : List Doc) : Except String Page × List Event :=
  let confidenceValues := dictOf rl
  let logEvs := if documents.length < rl.length then [Event.logError sid] else []
  match attachConf confidenceValues documents with
  | Except.error msg => (Except.error msg, logEvs)
  | Except.ok rdocs =>
    (Except.ok ⟨total_results, List.insertionSort mergeLe rdocs⟩, logEvs)

/-- Lines 140-148: when the engine session did not exist, look up the durable
record by `meta.sid` and, if one is found, replay its stored `pos_uuids` and
`neg_uuids` through `_refine` — unconditionally, even when both sets are empty.
A record whose metadata lacks either key raises `KeyError` (lines 147-148),
which the handler does not catch.  Returns the engine state after the step and
the events it issued. -/
def replayStep (w : World) (e1 : EngineState) (psid : String) :
    Except String (EngineState × List Event) :=
  match w.store.find? (fun r => r.sid == psid) with
  | some sess =>
    match sess.pos_uuids, sess.neg_uuids with
    | some pos, some neg =>
      Except.ok ((_refine e1 w.store psid pos neg).1, (_refine e1 w.store psid pos neg).2.2)
    | some _, none => Except.error "KeyError"
    | none, _ => Except.error "KeyError"
  | none => Except.ok (e1, [])

/-- Lines 150-182: fetch the ranked window `[offset, offset+limit)` from the
engine, return the degraded page `{'numFound': 0, 'docs': []}` when the
response has no `results` key (the `except KeyError` of lines 156-159), and
otherwise resolve the checksums against Solr and merge. -/
def fetchAndMerge (w : World) (e : EngineState) (psid : String) (offset limit : Int)
    (evs : List Event) : RunResult :=
  let resp := w.getResults psid offset (offset + limit)
  let evs2 := evs ++ [Event.getResults psid offset (offset + limit)]
  match resp.results with
  | none => ⟨Except.ok ⟨0, []⟩, evs2, e⟩
  | some rl =>
    let documents := w.solr (rl.map Prod.fst)
    ⟨(mergeResults psid resp.total_results rl documents).1,
      evs2 ++ [Event.solrQuery (rl.map Prod.fst)]
        ++ (mergeResults psid resp.total_results rl documents).2,
      e⟩

/-- Lines 129-182, the `results` endpoint.  `offset` defaults to 0 and `limit`
to 20 when the parameters are absent (lines 137-138).  The existence check
posts a session create; when the session was absent the stored labels are
replayed; then the ranked window is fetched and merged. -/
def results (w : World) (psid : String) (poffset plimit : Option Int) : RunResult :=
  if (sid_exists w.engine psid).1 = false then
    match replayStep w (sid_exists w.engine psid).2 psid with
    | Except.ok (e2, refEvs) =>
      fetchAndMerge w e2 psid (poffset.getD 0) (plimit.getD 20)
        (Event.postSession psid :: refEvs)
    | Except.error msg =>
      ⟨Except.error msg, [Event.postSession psid], (sid_exists w.engine psid).2⟩
  else
    fetchAndMerge w (sid_exists w.engine psid).2 psid (poffset.getD 0) (plimit.getD 20)
      [Event.postSession psid]

/-- Condition under which the replay step of lines 140-148 cannot raise: the
engine session is already live, or there is no durable record, or the record
carries both label keys. -/
def noReplayError (w : World) (psid : String) : Bool :=
  engineHas w.engine psid ||
    match w.store.find? (fun r => r.sid == psid) with
    | some sess => sess.pos_uuids.isSome && sess.neg_uuids.isSome
    | none => true

/-- Recogniser for refine-call events in a trace. -/
def isPutRefineEvent : Event → Bool
  | Event.putRefine _ _ _ => true
  | _ => false

/-- Recogniser for ranked-result-fetch events in a trace. -/
def isGetResultsEvent : Event → Bool
  | Event.getResults _ _ _ => true
  | _ => false

/-- Comparison claimed by the sort invariant: checksum of `d1` at least that of
`d2` in Python string order. -/
def checksumGe (a b : String) : Prop :=
  strLt a.data b.data = false

/-- Ordering stated by the sort invariant of the spec: strictly higher
confidence first, representative checksum descending as tie-break. -/
def sortedRel (d1 d2 : RankedDoc) : Prop :=
  d2.smqtk_iqr_confidence < d1.smqtk_iqr_confidence ∨
    (d1.smqtk_iqr_confidence = d2.smqtk_iqr_confidence ∧
      checksumGe (repChecksum d1) (repChecksum d2))

deriving instance DecidableEq for Except

/-- Concrete environment with a live engine session and a two-entry ranked
window, used to exercise the sort invariant on a nonempty page. -/
def w2World : World :=
  { engine := ⟨[("s", [], [])]⟩
    store := []
    getResults := fun _ _ _ => ⟨3, some [("a1", mkRat 9 10), ("a2", mkRat 9 10)]⟩
    solr := fun _ => [⟨ShaField.scalar "a1"⟩, ⟨ShaField.list ["a2", "a9"]⟩] }

/-- Concrete environment with an absent engine session and a durable record
carrying label sets, used to exercise the replay path. -/
def w4World : World :=
  { engine := ⟨[]⟩
    store := [⟨"s", some ["p1"], some ["n1"]⟩]
    getResults := fun _ _ _ => ⟨0, some []⟩
    solr := fun _ => [] }

/-- Concrete environment whose engine response has no `results` field, used to
exercise the degraded-page path. -/
def w5World : World :=
  { engine := ⟨[("s", [], [])]⟩
    store := []
    getResults := fun _ _ _ => ⟨5, none⟩
    solr := fun _ => [] }

/-- Concrete environment with an absent engine session and a durable record
whose label sets are both empty, used to exercise the unconditional replay. -/
def w9World : World :=
  { engine := ⟨[]⟩
    store := [⟨"s", some [], some []⟩]
    getResults := fun _ _ _ => ⟨0, some []⟩
    solr := fun _ => [] }

/-- Concrete environment with a live engine session and an empty ranked
window, used to exercise the fetch-window computation. -/
def w10World : World :=
  { engine := ⟨[("s", [], [])]⟩
    store := []
    getResults := fun _ _ _ => ⟨0, some []⟩
    solr := fun _ => [] }

/-! Helper lemmas about the embedded Python orderings. -/

theorem charLt_true_iff {a b : Char} : charLt a b = true ↔ a.toNat < b.toNat := by
  simp [charLt]

theorem charLt_false_iff {a b : Char} : charLt a b = false ↔ b.toNat ≤ a.toNat := by
  simp [charLt, Nat.not_lt]

theorem charLt_eq {a b : Char} (h1 : charLt a b = false) (h2 : charLt b a = false) :
    a = b := by
  rw [charLt_false_iff] at h1 h2
  have h3 : a.val.toNat = b.val.toNat := Nat.le_antisymm h2 h1
  exact Char.ext (UInt32.toNat.inj h3)

theorem strLt_asymm : ∀ {s t : List Char}, strLt s t = true → strLt t s = false := by
  intro s
  induction s with
  | nil =>
    intro t h
    cases t with
    | nil => simp [strLt] at h
    | cons b bs => simp [strLt]
  | cons a as ih =>
    intro t h
    cases t with
    | nil => simp [strLt] at h
    | cons b bs =>
      simp only [strLt] at h ⊢
      cases hab : charLt a b with
      | true =>
        have hba : charLt b a = false := by
          rw [charLt_false_iff]
          exact Nat.le_of_lt (charLt_true_iff.mp hab)
        simp [hab, hba]
      | false =>
        cases hba : charLt b a with
        | true => rw [hab, hba] at h; simp at h
        | false =>
          rw [hab, hba] at h
          simp only [if_false, Bool.false_eq_true] at h
          simp [hab, hba, ih h]

theorem strLt_eq_of_not_lt :
    ∀ {s t : List Char}, strLt s t = false → strLt t s = false → s = t := by
  intro s
  induction s with
  | nil =>
    intro t h1 _
    cases t with
    | nil => rfl
    | cons b bs => simp [strLt] at h1
  | cons a as ih =>
    intro t h1 h2
    cases t with
    | nil => simp [strLt] at h2
    | cons b bs =>
      simp only [strLt] at h1 h2
      cases hab : charLt a b with
      | true => rw [hab] at h1; simp at h1
      | false =>
        cases hba : charLt b a with
        | true => rw [hba] at h2; simp at h2
        | false =>
          rw [hab, hba] at h1 h2
          simp only [if_false, Bool.false_eq_true] at h1 h2
          rw [charLt_eq hab hba, ih h1 h2]

theorem strLt_neg_trans :
    ∀ {s t u : List Char}, strLt s t = false → strLt t u = false → strLt s u = false := by
  intro s
  induction s with
  | nil =>
    intro t u h1 h2
    cases t with
    | nil => exact h2
    | cons b bs => simp [strLt] at h1
  | cons a as ih =>
    intro t u h1 h2
    cases t with
    | nil =>
      cases u with
      | nil => simp [strLt]
      | cons c cs => simp [strLt] at h2
    | cons b bs =>
      cases u with
      | nil => simp [strLt]
      | cons c cs =>
        simp only [strLt] at h1 h2 ⊢
        cases hab : charLt a b with
        | true => rw [hab] at h1; simp at h1
        | false =>
          cases hbc : charLt b c with
          | true => rw [hbc] at h2; simp at h2
          | false =>
            have hba' : b.toNat ≤ a.toNat := charLt_false_iff.mp hab
            have hcb' : c.toNat ≤ b.toNat := charLt_false_iff.mp hbc
            have hac : charLt a c = false := by
              rw [charLt_false_iff]; omega
            rw [hac]
            cases hca : charLt c a with
            | true => simp
            | false =>
              have hca' : a.toNat ≤ c.toNat := charLt_false_iff.mp hca
              have hba : charLt b a = false := by rw [charLt_false_iff]; omega
              have hcb : charLt c b = false := by rw [charLt_false_iff]; omega
              rw [hab, hba] at h1
              rw [hbc, hcb] at h2
              simp only [if_false, Bool.false_eq_true] at h1 h2
              simp [ih h1 h2]

theorem keyLt_true_iff {p q : Rat × String} :
    keyLt p q = true ↔ p.1 < q.1 ∨ (p.1 = q.1 ∧ strLt p.2.data q.2.data = true) := by
  simp [keyLt]

theorem keyLt_false_iff {p q : Rat × String} :
    keyLt p q = false ↔ ¬ p.1 < q.1 ∧ (p.1 = q.1 → strLt p.2.data q.2.data = false) := by
  cases h : keyLt p q with
  | true =>
    simp only [Bool.true_eq_false, false_iff]
    rcases keyLt_true_iff.mp h with h1 | ⟨h1, h2⟩
    · intro hc; exact hc.1 h1
    · intro hc; rw [hc.2 h1] at h2; cases h2
  | false =>
    simp only [true_iff]
    rw [keyLt] at h
    rcases Bool.or_eq_false_iff.mp h with ⟨ha, hb⟩
    refine ⟨by simpa using ha, ?_⟩
    intro heq
    rcases Bool.and_eq_false_iff.mp hb with hc | hc
    · simp at hc; exact absurd heq hc
    · exact hc

theorem keyLt_asymm {p q : Rat × String} (h : keyLt p q = true) : keyLt q p = false := by
  rw [keyLt_false_iff]
  rcases keyLt_true_iff.mp h with h1 | ⟨h1, h2⟩
  · exact ⟨asymm h1, fun he => absurd (he ▸ h1) (lt_irrefl _)⟩
  · exact ⟨fun hl => absurd (h1 ▸ hl) (lt_irrefl _), fun _ => strLt_asymm h2⟩

theorem keyLt_neg_trans {p q r : Rat × String}
    (h1 : keyLt p q = false) (h2 : keyLt q r = false) : keyLt p r = false := by
  rcases keyLt_false_iff.mp h1 with ⟨hpq, hpq2⟩
  rcases keyLt_false_iff.mp h2 with ⟨hqr, hqr2⟩
  have hqp : q.1 ≤ p.1 := le_of_not_lt hpq
  have hrq : r.1 ≤ q.1 := le_of_not_lt hqr
  rw [keyLt_false_iff]
  constructor
  · intro hpr
    exact absurd (lt_of_lt_of_le hpr (le_trans hrq hqp)) (lt_irrefl _)
  · intro hepr
    have heq1 : p.1 = q.1 := le_antisymm (hepr ▸ hrq) hqp
    have heq2 : q.1 = r.1 := heq1 ▸ hepr
    exact strLt_neg_trans (hpq2 heq1) (hqr2 heq2)

theorem mergeLe_total (x y : RankedDoc) : mergeLe x y ∨ mergeLe y x := by
  unfold mergeLe
  cases h : keyLt (sortKey x) (sortKey y) with
  | false => exact Or.inl rfl
  | true => exact Or.inr (keyLt_asymm h)

theorem mergeLe_trans (x y z : RankedDoc) (h1 : mergeLe x y) (h2 : mergeLe y z) :
    mergeLe x z :=
  keyLt_neg_trans h1 h2

theorem sortedRel_of_mergeLe {x y : RankedDoc} (h : mergeLe x y) : sortedRel x y := by
  unfold mergeLe at h
  rcases keyLt_false_iff.mp h with ⟨h1, h2⟩
  unfold sortedRel checksumGe
  rcases lt_trichotomy x.smqtk_iqr_confidence y.smqtk_iqr_confidence with hl | he | hg
  · exact absurd hl (by simpa [sortKey] using h1)
  · exact Or.inr ⟨he, by simpa [sortKey] using h2 (by simpa [sortKey] using he)⟩
  · exact Or.inl hg

theorem sortDesc_pairwise (l : List RankedDoc) :
    (List.insertionSort mergeLe l).Pairwise mergeLe := by
  haveI : IsTotal RankedDoc mergeLe := ⟨mergeLe_total⟩
  haveI : IsTrans RankedDoc mergeLe := ⟨mergeLe_trans⟩
  exact List.sorted_insertionSort mergeLe l

/-! Helper lemmas about the merge step. -/

theorem dictOf_append_single (l : List (String × Rat)) (p : String × Rat) (k : String) :
    dictOf (l ++ [p]) k = if p.1 == k then some p.2 else dictOf l k := by
  simp [dictOf, List.foldl_append]

theorem attachConf_error_of_missing (conf : String → Option Rat) :
    ∀ documents : List Doc,
      (∃ d ∈ documents, docConfMissing conf d = true) →
      ∃ msg, attachConf conf documents = Except.error msg := by
  intro documents
  induction documents with
  | nil =>
    intro h
    rcases h with ⟨d, hd, _⟩
    cases hd
  | cons d ds ih =>
    intro h
    rcases h with ⟨x, hx, hmiss⟩
    rcases List.mem_cons.mp hx with rfl | hxs
    · cases hrep : x.sha1sum_s_md.representative with
      | none => exact ⟨"IndexError", by simp [attachConf, hrep]⟩
      | some sha =>
        cases hc : conf sha with
        | none => exact ⟨"KeyError", by simp [attachConf, hrep, hc]⟩
        | some c =>
          exfalso
          simp [docConfMissing, hrep, hc] at hmiss
    · cases hrep : d.sha1sum_s_md.representative with
      | none => exact ⟨"IndexError", by simp [attachConf, hrep]⟩
      | some sha =>
        cases hc : conf sha with
        | none => exact ⟨"KeyError", by simp [attachConf, hrep, hc]⟩
        | some c =>
          rcases ih ⟨x, hxs, hmiss⟩ with ⟨msg, hmsg⟩
          exact ⟨msg, by simp [attachConf, hrep, hc, hmsg]⟩

theorem mergeResults_events (sid : String) (tr : Nat) (rl : List (String × Rat))
    (documents : List Doc) :
    (mergeResults sid tr rl documents).2 =
      (if documents.length < rl.length then [Event.logError sid] else []) := by
  rw [mergeResults]
  cases hatt : attachConf (dictOf rl) documents <;> simp [hatt]

theorem mergeResults_events_not_refine (sid : String) (tr : Nat) (rl : List (String × Rat))
    (documents : List Doc) :
    ∀ ev ∈ (mergeResults sid tr rl documents).2,
      isPutRefineEvent ev = false ∧ isGetResultsEvent ev = false := by
  rw [mergeResults_events]
  intro ev hev
  by_cases h : documents.length < rl.length
  · rw [if_pos h] at hev
    rcases List.mem_singleton.mp hev with rfl
    exact ⟨rfl, rfl⟩
  · rw [if_neg h] at hev
    cases hev

theorem mergeResults_ok_sorted {sid : String} {tr : Nat} {rl : List (String × Rat)}
    {documents : List Doc} {page : Page}
    (h : (mergeResults sid tr rl documents).1 = Except.ok page) :
    page.docs.Pairwise sortedRel := by
  rw [mergeResults] at h
  cases hatt : attachConf (dictOf rl) documents with
  | error msg => rw [hatt] at h; simp at h
  | ok rdocs =>
    rw [hatt] at h
    dsimp only at h
    rw [Except.ok.injEq] at h
    rw [← h]
    exact (sortDesc_pairwise rdocs).imp (fun hle => sortedRel_of_mergeLe hle)

/-! Helper lemmas about the engine-session operations. -/

theorem sid_exists_fst (e : EngineState) (sid : String) :
    (sid_exists e sid).1 = engineHas e sid := by
  unfold sid_exists postSession
  by_cases h : engineHas e sid <;> simp [h]

theorem sid_exists_snd (e : EngineState) (sid : String) :
    (sid_exists e sid).2 = (postSession e sid).2 := rfl

theorem postSession_snd_of_has {e : EngineState} {sid : String}
    (h : engineHas e sid = true) : (postSession e sid).2 = e := by
  unfold postSession
  simp [h]

theorem postSession_snd_of_not_has {e : EngineState} {sid : String}
    (h : engineHas e sid = false) :
    (postSession e sid).2 = ⟨(sid, [], []) :: e.sessions⟩ := by
  unfold postSession
  simp [h]

theorem engineHas_cons_self (e : EngineState) (sid : String)
    (pos neg : List String) : engineHas ⟨(sid, pos, neg) :: e.sessions⟩ sid = true := by
  unfold engineHas
  rw [List.find?_cons_of_pos]
  · rfl
  · simp

theorem engineHas_postSession (e : EngineState) (sid : String) :
    engineHas (postSession e sid).2 sid = true := by
  by_cases h : engineHas e sid
  · rw [postSession_snd_of_has h]; exact h
  · rw [postSession_snd_of_not_has (by simpa using h)]
    exact engineHas_cons_self e sid [] []

theorem lookupLabels_cons_self (rest : List (String × List String × List String))
    (sid : String) (pos neg : List String) :
    lookupLabels ⟨(sid, pos, neg) :: rest⟩ sid = some (pos, neg) := by
  unfold lookupLabels
  rw [List.find?_cons_of_pos]
  · rfl
  · simp

theorem lookupLabels_putRefine {e : EngineState} {sid : String} (pos neg : List String)
    (h : engineHas e sid = true) :
    lookupLabels (putRefine e sid pos neg) sid = some (pos, neg) := by
  obtain ⟨sessions⟩ := e
  induction sessions with
  | nil => simp [engineHas, List.find?] at h
  | cons p ps ih =>
    by_cases hp : p.1 == sid
    · unfold putRefine
      simp only [List.map_cons, hp, if_true]
      exact lookupLabels_cons_self _ sid pos neg
    · have hrec : engineHas ⟨ps⟩ sid = true := by
        unfold engineHas at h ⊢
        rw [List.find?_cons_of_neg] at h
        · exact h
        · simp [hp]
      have := ih hrec
      unfold putRefine at this ⊢
      unfold lookupLabels at this ⊢
      simp only [List.map_cons, hp, if_false, Bool.false_eq_true]
      rw [List.find?_cons_of_neg]
      · exact this
      · simp [hp]

/-! Helper lemmas about the fetch-and-merge tail of the `results` endpoint. -/

theorem fetchAndMerge_engine (w : World) (e : EngineState) (psid : String)
    (offset limit : Int) (evs : List Event) :
    (fetchAndMerge w e psid offset limit evs).engine = e := by
  rw [fetchAndMerge]
  cases hres : (w.getResults psid offset (offset + limit)).results <;> simp [hres]

theorem fetchAndMerge_response_none {w : World} {e : EngineState} {psid : String}
    {offset limit : Int} {evs : List Event}
    (h : (w.getResults psid offset (offset + limit)).results = none) :
    (fetchAndMerge w e psid offset limit evs).response = Except.ok ⟨0, []⟩ := by
  rw [fetchAndMerge]
  simp [h]

theorem fetchAndMerge_response_some {w : World} {e : EngineState} {psid : String}
    {offset limit : Int} {evs : List Event} {rl : List (String × Rat)}
    (h : (w.getResults psid offset (offset + limit)).results = some rl) :
    (fetchAndMerge w e psid offset limit evs).response =
      (mergeResults psid (w.getResults psid offset (offset + limit)).total_results rl
        (w.solr (rl.map Prod.fst))).1 := by
  rw [fetchAndMerge]
  simp [h]

theorem fetchAndMerge_events (w : World) (e : EngineState) (psid : String)
    (offset limit : Int) (evs : List Event) :
    ∃ rest,
      (fetchAndMerge w e psid offset limit evs).events =
          evs ++ Event.getResults psid offset (offset + limit) :: rest ∧
        ∀ ev ∈ rest, isPutRefineEvent ev = false ∧ isGetResultsEvent ev = false := by
  rw [fetchAndMerge]
  cases hres : (w.getResults psid offset (offset + limit)).results with
  | none =>
    refine ⟨[], by simp [hres], ?_⟩
    intro ev hev
    cases hev
  | some rl =>
    refine ⟨Event.solrQuery (rl.map Prod.fst) ::
        (mergeResults psid (w.getResults psid offset (offset + limit)).total_results rl
          (w.solr (rl.map Prod.fst))).2, by simp [hres], ?_⟩
    intro ev hev
    rcases List.mem_cons.mp hev with rfl | hev2
    · exact ⟨rfl, rfl⟩
    · exact mergeResults_events_not_refine _ _ _ _ ev hev2

theorem fetchAndMerge_sorted {w : World} {e : EngineState} {psid : String}
    {offset limit : Int} {evs : List Event} {page : Page}
    (h : (fetchAndMerge w e psid offset limit evs).response = Except.ok page) :
    page.docs.Pairwise sortedRel := by
  cases hres : (w.getResults psid offset (offset + limit)).results with
  | none =>
    have h2 := (@fetchAndMerge_response_none w e psid offset limit evs hres).symm.trans h
    rw [Except.ok.injEq] at h2
    rw [← h2]
    exact List.Pairwise.nil
  | some rl =>
    rw [fetchAndMerge_response_some hres] at h
    exact mergeResults_ok_sorted h

/-! Branch characterisations of the `results` endpoint. -/

theorem results_live {w : World} {psid : String} (poffset plimit : Option Int)
    (h : engineHas w.engine psid = true) :
    results w psid poffset plimit =
      fetchAndMerge w w.engine psid (poffset.getD 0) (plimit.getD 20)
        [Event.postSession psid] := by
  rw [results]
  rw [if_neg (by simp [sid_exists_fst, h])]
  rw [sid_exists_snd, postSession_snd_of_has h]

theorem results_absent_found {w : World} {psid : String} (poffset plimit : Option Int)
    {sess : SessionMeta} {pos neg : List String}
    (habs : engineHas w.engine psid = false)
    (hfind : w.store.find? (fun r => r.sid == psid) = some sess)
    (hpos : sess.pos_uuids = some pos) (hneg : sess.neg_uuids = some neg) :
    results w psid poffset plimit =
      fetchAndMerge w (putRefine ⟨(psid, [], []) :: w.engine.sessions⟩ psid pos neg)
        psid (poffset.getD 0) (plimit.getD 20)
        [Event.postSession psid, Event.postSession psid, Event.putRefine psid pos neg] := by
  have e1has : engineHas (⟨(psid, [], []) :: w.engine.sessions⟩ : EngineState) psid = true :=
    engineHas_cons_self w.engine psid [] []
  rw [results]
  rw [if_pos (by rw [sid_exists_fst, habs])]
  rw [sid_exists_snd, postSession_snd_of_not_has habs, replayStep, hfind]
  dsimp only
  rw [hpos, hneg]
  dsimp only [_refine]
  rw [postSession_snd_of_has e1has]

theorem results_absent_notfound {w : World} {psid : String} (poffset plimit : Option Int)
    (habs : engineHas w.engine psid = false)
    (hfind : w.store.find? (fun r => r.sid == psid) = none) :
    results w psid poffset plimit =
      fetchAndMerge w ⟨(psid, [], []) :: w.engine.sessions⟩ psid (poffset.getD 0)
        (plimit.getD 20) [Event.postSession psid] := by
  rw [results]
  rw [if_pos (by rw [sid_exists_fst, habs])]
  rw [sid_exists_snd, postSession_snd_of_not_has habs, replayStep, hfind]

theorem results_absent_badmeta {w : World} {psid : String} (poffset plimit : Option Int)
    {sess : SessionMeta}
    (habs : engineHas w.engine psid = false)
    (hfind : w.store.find? (fun r => r.sid == psid) = some sess)
    (hbad : sess.pos_uuids = none ∨ sess.neg_uuids = none) :
    results w psid poffset plimit =
      ⟨Except.error "KeyError", [Event.postSession psid],
        ⟨(psid, [], []) :: w.engine.sessions⟩⟩ := by
  rw [results]
  rw [if_pos (by rw [sid_exists_fst, habs])]
  rw [sid_exists_snd, postSession_snd_of_not_has habs, replayStep, hfind]
  dsimp only
  rcases hbad with hb | hb
  · rw [hb]
  · cases hp : sess.pos_uuids with
    | none => rfl
    | some p => rw [hb]

theorem noReplayError_elim {w : World} {psid : String}
    (h : noReplayError w psid = true) (habs : engineHas w.engine psid = false) :
    w.store.find? (fun r => r.sid == psid) = none ∨
      ∃ sess pos neg,
        w.store.find? (fun r => r.sid == psid) = some sess ∧
          sess.pos_uuids = some pos ∧ sess.neg_uuids = some neg := by
  unfold noReplayError at h
  rw [habs] at h
  rw [Bool.false_or] at h
  cases hf : w.store.find? (fun r => r.sid == psid) with
  | none => exact Or.inl rfl
  | some sess =>
    rw [hf] at h
    simp only [Bool.and_eq_true] at h
    rcases h with ⟨h1, h2⟩
    rcases Option.isSome_iff_exists.mp h1 with ⟨pos, hpos⟩
    rcases Option.isSome_iff_exists.mp h2 with ⟨neg, hneg⟩
    exact Or.inr ⟨sess, pos, neg, rfl, hpos, hneg⟩

theorem filter_getResults_single {evs0 rest : List Event} {psid : String} {i j : Int}
    (h0 : ∀ ev ∈ evs0, isGetResultsEvent ev = false)
    (h1 : ∀ ev ∈ rest, isGetResultsEvent ev = false) :
    (evs0 ++ Event.getResults psid i j :: rest).filter isGetResultsEvent =
      [Event.getResults psid i j] := by
  rw [List.filter_append]
  rw [List.filter_eq_nil_iff.mpr (by intro a ha; simp [h0 a ha])]
  rw [List.nil_append, List.filter_cons_of_pos (by rfl)]
  rw [List.filter_eq_nil_iff.mpr (by intro a ha; simp [h1 a ha])]

/-! Claim theorems. -/

/-- C1 (counterexample): with ranked entry `("a1", 9/10)` and a single resolved
document whose representative checksum `"b1"` has no entry in the confidence
mapping, the merge does not exclude the document and succeed — it fails with an
uncaught `KeyError` — and no diagnostic event at all is recorded, contradicting
the claim that such a document is dropped, one diagnostic naming the checksum
is emitted, and the request still succeeds. -/
theorem merge_missing_checksum_cex :
    (mergeResults "s" 1 [("a1", mkRat 9 10)] [⟨ShaField.scalar "b1"⟩]).1 =
        Except.error "KeyError" ∧
      (mergeResults "s" 1 [("a1", mkRat 9 10)] [⟨ShaField.scalar "b1"⟩]).2 = [] := by
  decide

/-- C1 (amended): whenever some resolved document of a merge invocation has a
representative checksum with no entry in the confidence mapping (or an empty
checksum list), the whole request fails with an uncaught exception instead of
excluding the document, and the only diagnostic possibly recorded is the single
session-identifying event emitted exactly when fewer documents than ranked
entries were resolved. -/
theorem merge_missing_checksum_error (sid : String) (tr : Nat)
    (rl : List (String × Rat)) (documents : List Doc)
    (h : ∃ d ∈ documents, docConfMissing (dictOf rl) d = true) :
    (∃ msg, (mergeResults sid tr rl documents).1 = Except.error msg) ∧
      (mergeResults sid tr rl documents).2 =
        (if documents.length < rl.length then [Event.logError sid] else []) := by
  refine ⟨?_, mergeResults_events sid tr rl documents⟩
  rcases attachConf_error_of_missing (dictOf rl) documents h with ⟨msg, hmsg⟩
  refine ⟨msg, ?_⟩
  rw [mergeResults]
  simp [hmsg]

/-- C1 (witness): the amended theorem applied to the concrete counterexample
input. -/
theorem merge_missing_checksum_error_witness :
    (∃ d ∈ [(⟨ShaField.scalar "b1"⟩ : Doc)],
        docConfMissing (dictOf [("a1", mkRat 9 10)]) d = true) ∧
      (∃ msg, (mergeResults "s" 1 [("a1", mkRat 9 10)] [⟨ShaField.scalar "b1"⟩]).1 =
          Except.error msg) ∧
      (mergeResults "s" 1 [("a1", mkRat 9 10)] [⟨ShaField.scalar "b1"⟩]).2 =
        (if [(⟨ShaField.scalar "b1"⟩ : Doc)].length < [("a1", mkRat 9 10)].length then
          [Event.logError "s"] else []) :=
  ⟨by decide, merge_missing_checksum_error "s" 1 [("a1", mkRat 9 10)]
    [⟨ShaField.scalar "b1"⟩] (by decide)⟩

/-- C2: in every page returned by the `results` endpoint, whenever a document
appears before another, the earlier one has strictly greater
`smqtk_iqr_confidence`, or the confidences are equal and the representative
checksum of the earlier one is greater than or equal (in Python string order)
to that of the later one. -/
theorem results_sorted (w : World) (psid : String) (poffset plimit : Option Int)
    (page : Page)
    (h : (results w psid poffset plimit).response = Except.ok page) :
    page.docs.Pairwise sortedRel := by
  by_cases hlive : engineHas w.engine psid = true
  · rw [results_live poffset plimit hlive] at h
    exact fetchAndMerge_sorted h
  · have habs : engineHas w.engine psid = false := by
      cases hb : engineHas w.engine psid
      · rfl
      · exact absurd hb hlive
    cases hf : w.store.find? (fun r => r.sid == psid) with
    | none =>
      rw [results_absent_notfound poffset plimit habs hf] at h
      exact fetchAndMerge_sorted h
    | some sess =>
      cases hpos : sess.pos_uuids with
      | none =>
        rw [results_absent_badmeta poffset plimit habs hf (Or.inl hpos)] at h
        simp at h
      | some pos =>
        cases hneg : sess.neg_uuids with
        | none =>
          rw [results_absent_badmeta poffset plimit habs hf (Or.inr hneg)] at h
          simp at h
        | some neg =>
          rw [results_absent_found poffset plimit habs hf hpos hneg] at h
          exact fetchAndMerge_sorted h

/-- C2 (witness): a concrete run returning a two-document page that carries the
sort invariant. -/
theorem results_sorted_witness :
    (results w2World "s" none none).response =
        Except.ok ⟨3, [⟨⟨ShaField.list ["a2", "a9"]⟩, mkRat 9 10⟩,
          ⟨⟨ShaField.scalar "a1"⟩, mkRat 9 10⟩]⟩ ∧
      List.Pairwise sortedRel
        ([⟨⟨ShaField.list ["a2", "a9"]⟩, mkRat 9 10⟩,
          ⟨⟨ShaField.scalar "a1"⟩, mkRat 9 10⟩] : List RankedDoc) :=
  ⟨by decide,
    results_sorted w2World "s" none none
      ⟨3, [⟨⟨ShaField.list ["a2", "a9"]⟩, mkRat 9 10⟩,
        ⟨⟨ShaField.scalar "a1"⟩, mkRat 9 10⟩]⟩ (by decide)⟩

/-- C3 (counterexample): `_refine` called with positive set `["y"]` on a store
whose record for the session holds positive set `["x"]` leaves the stored
record unchanged, so the stored sets do not equal the sets just submitted,
contradicting the claimed write-through. -/
theorem refine_no_writethrough_cex :
    ¬ (((_refine ⟨[]⟩ [⟨"s1", some ["x"], some []⟩] "s1" ["y"] []).2.1.find?
          (fun r => r.sid == "s1")).map SessionMeta.pos_uuids = some (some ["y"])) := by
  decide

/-- C3 (amended): `_refine` submits the replacement label sets to the engine —
after it returns, the engine session holds exactly the submitted sets — but it
performs no write to the durable Session Store, whose contents are returned
unchanged. -/
theorem refine_no_writethrough (e : EngineState) (store : List SessionMeta)
    (sid : String) (pos neg : List String) :
    (_refine e store sid pos neg).2.1 = store ∧
      lookupLabels (_refine e store sid pos neg).1 sid = some (pos, neg) := by
  refine ⟨rfl, ?_⟩
  unfold _refine
  exact lookupLabels_putRefine pos neg (engineHas_postSession e sid)

/-- C4: when the engine session is absent at the start of a `results` call, a
found durable record with both label keys causes exactly one refine call
carrying exactly the stored sets, issued before the ranked-result fetch; when
no durable record exists, no refine is issued and the freshly created engine
session proceeds with empty labels. -/
theorem reconcile_replay (w : World) (psid : String) (poffset plimit : Option Int)
    (habs : engineHas w.engine psid = false) :
    (∀ sess pos neg,
        w.store.find? (fun r => r.sid == psid) = some sess →
        sess.pos_uuids = some pos → sess.neg_uuids = some neg →
        ∃ rest,
          (results w psid poffset plimit).events =
              Event.postSession psid :: Event.postSession psid ::
                Event.putRefine psid pos neg ::
                Event.getResults psid (poffset.getD 0)
                  (poffset.getD 0 + plimit.getD 20) :: rest ∧
            ∀ ev ∈ rest, isPutRefineEvent ev = false) ∧
      (w.store.find? (fun r => r.sid == psid) = none →
        (results w psid poffset plimit).events.filter isPutRefineEvent = [] ∧
          lookupLabels (results w psid poffset plimit).engine psid = some ([], [])) := by
  constructor
  · intro sess pos neg hfind hpos hneg
    rw [results_absent_found poffset plimit habs hfind hpos hneg]
    rcases fetchAndMerge_events w
        (putRefine ⟨(psid, [], []) :: w.engine.sessions⟩ psid pos neg) psid
        (poffset.getD 0) (plimit.getD 20)
        [Event.postSession psid, Event.postSession psid, Event.putRefine psid pos neg] with
      ⟨rest, hev, hrest⟩
    refine ⟨rest, ?_, fun ev hm => (hrest ev hm).1⟩
    rw [hev]
    rfl
  · intro hfind
    rw [results_absent_notfound poffset plimit habs hfind]
    rcases fetchAndMerge_events w ⟨(psid, [], []) :: w.engine.sessions⟩ psid
        (poffset.getD 0) (plimit.getD 20) [Event.postSession psid] with ⟨rest, hev, hrest⟩
    constructor
    · rw [hev]
      apply List.filter_eq_nil_iff.mpr
      intro ev hmem
      simp only [List.singleton_append, List.mem_cons] at hmem
      rcases hmem with rfl | rfl | hmem
      · simp [isPutRefineEvent]
      · simp [isPutRefineEvent]
      · simp [(hrest ev hmem).1]
    · rw [fetchAndMerge_engine]
      exact lookupLabels_cons_self w.engine.sessions psid [] []

/-- C4 (witness): the reconciliation theorem applied to a concrete environment
with an absent engine session and a stored record carrying label sets. -/
theorem reconcile_replay_witness :
    engineHas w4World.engine "s" = false ∧
      ((∀ sess pos neg,
          w4World.store.find? (fun r => r.sid == "s") = some sess →
          sess.pos_uuids = some pos → sess.neg_uuids = some neg →
          ∃ rest,
            (results w4World "s" none none).events =
                Event.postSession "s" :: Event.postSession "s" ::
                  Event.putRefine "s" pos neg ::
                  Event.getResults "s" ((none : Option Int).getD 0)
                    ((none : Option Int).getD 0 + (none : Option Int).getD 20) :: rest ∧
              ∀ ev ∈ rest, isPutRefineEvent ev = false) ∧
        (w4World.store.find? (fun r => r.sid == "s") = none →
          (results w4World "s" none none).events.filter isPutRefineEvent = [] ∧
            lookupLabels (results w4World "s" none none).engine "s" = some ([], []))) :=
  ⟨by decide, reconcile_replay w4World "s" none none (by decide)⟩

/-- C5: whenever the replay step cannot raise and the engine response for the
requested window has no `results` field, the `results` endpoint returns the
degraded page with zero total results and no documents instead of propagating
an error. -/
theorem degraded_page (w : World) (psid : String) (poffset plimit : Option Int)
    (hsafe : noReplayError w psid = true)
    (hnone : (w.getResults psid (poffset.getD 0)
      (poffset.getD 0 + plimit.getD 20)).results = none) :
    (results w psid poffset plimit).response = Except.ok ⟨0, []⟩ := by
  by_cases hlive : engineHas w.engine psid = true
  · rw [results_live poffset plimit hlive]
    exact fetchAndMerge_response_none hnone
  · have habs : engineHas w.engine psid = false := by
      cases hb : engineHas w.engine psid
      · rfl
      · exact absurd hb hlive
    rcases noReplayError_elim hsafe habs with hf | ⟨sess, pos, neg, hf, hpos, hneg⟩
    · rw [results_absent_notfound poffset plimit habs hf]
      exact fetchAndMerge_response_none hnone
    · rw [results_absent_found poffset plimit habs hf hpos hneg]
      exact fetchAndMerge_response_none hnone

/-- C5 (witness): the degraded-page theorem applied to a concrete environment
whose engine response has no `results` field. -/
theorem degraded_page_witness :
    noReplayError w5World "s" = true ∧
      (w5World.getResults "s" ((none : Option Int).getD 0)
        ((none : Option Int).getD 0 + (none : Option Int).getD 20)).results = none ∧
      (results w5World "s" none none).response = Except.ok ⟨0, []⟩ :=
  ⟨by decide, by decide, degraded_page w5World "s" none none (by decide) (by decide)⟩

/-- C6 (counterexample): for the ranked entries `[("a1",9/10), ("a2",9/10),
("a3",1/10)]` with documents `Doc(checksum="a1")` and
`Doc(checksum=["a2","a9"])`, the merge does not return the docs in the order
`[Doc(a1), Doc(a2)]` claimed: the descending checksum tie-break places
`Doc(a2)` first. -/
theorem example_order_cex :
    ¬ ((mergeResults "s" 3 [("a1", mkRat 9 10), ("a2", mkRat 9 10), ("a3", mkRat 1 10)]
          [⟨ShaField.scalar "a1"⟩, ⟨ShaField.list ["a2", "a9"]⟩]).1 =
        Except.ok ⟨3, [⟨⟨ShaField.scalar "a1"⟩, mkRat 9 10⟩,
          ⟨⟨ShaField.list ["a2", "a9"]⟩, mkRat 9 10⟩]⟩) := by
  decide

/-- C6 (amended): on that input the returned page takes `numFound` from the
engine total, drops the unresolved `a3` while logging exactly one diagnostic,
and lists `Doc(a2)` before `Doc(a1)` — tie on confidence 9/10, checksum
descending. -/
theorem example_order_amended :
    mergeResults "s" 3 [("a1", mkRat 9 10), ("a2", mkRat 9 10), ("a3", mkRat 1 10)]
        [⟨ShaField.scalar "a1"⟩, ⟨ShaField.list ["a2", "a9"]⟩] =
      (Except.ok ⟨3, [⟨⟨ShaField.list ["a2", "a9"]⟩, mkRat 9 10⟩,
          ⟨⟨ShaField.scalar "a1"⟩, mkRat 9 10⟩]⟩,
        [Event.logError "s"]) := by
  decide

/-- C7: the confidence mapping built from the ranked entries is total (its
construction never fails) and maps every checksum to the confidence of its
last occurrence in the entry list — last write wins on duplicates — which is
the value found by scanning the reversed list. -/
theorem dictOf_last_write_wins (l : List (String × Rat)) (k : String) :
    dictOf l k = (l.reverse.find? (fun p => p.1 == k)).map Prod.snd := by
  induction l using List.reverseRecOn with
  | nil => rfl
  | append_singleton l p ih =>
    rw [dictOf_append_single, List.reverse_append]
    simp only [List.reverse_singleton, List.singleton_append, List.find?]
    cases hp : p.1 == k with
    | true => simp
    | false => simpa using ih

/-- C8: the engine-session existence check returns true exactly when the
session is already live (the create responded non-2xx), false when the create
succeeded; and after any create/attach for an id, a second call for the same
id reports the session as already live, without raising. -/
theorem sid_exists_spec (e : EngineState) (sid : String) :
    (sid_exists e sid).1 = engineHas e sid ∧
      (sid_exists (postSession e sid).2 sid).1 = true := by
  refine ⟨sid_exists_fst e sid, ?_⟩
  rw [sid_exists_fst]
  exact engineHas_postSession e sid

/-- C9: when the engine session is absent and a durable record is found, the
replay refine is invoked with exactly the stored sets — even when both are
empty — and if the record lacks a `pos_uuids` or `neg_uuids` key, the whole
request fails with `KeyError` instead of skipping the replay. -/
theorem replay_unconditional (w : World) (psid : String) (poffset plimit : Option Int)
    (sess : SessionMeta)
    (habs : engineHas w.engine psid = false)
    (hfind : w.store.find? (fun r => r.sid == psid) = some sess) :
    (∀ pos neg, sess.pos_uuids = some pos → sess.neg_uuids = some neg →
        Event.putRefine psid pos neg ∈ (results w psid poffset plimit).events) ∧
      ((sess.pos_uuids = none ∨ sess.neg_uuids = none) →
        (results w psid poffset plimit).response = Except.error "KeyError") := by
  constructor
  · intro pos neg hpos hneg
    rw [results_absent_found poffset plimit habs hfind hpos hneg]
    rcases fetchAndMerge_events w
        (putRefine ⟨(psid, [], []) :: w.engine.sessions⟩ psid pos neg) psid
        (poffset.getD 0) (plimit.getD 20)
        [Event.postSession psid, Event.postSession psid, Event.putRefine psid pos neg] with
      ⟨rest, hev, _⟩
    rw [hev]
    simp
  · intro hbad
    rw [results_absent_badmeta poffset plimit habs hfind hbad]

/-- C9 (witness): the replay theorem applied to a concrete environment whose
stored record carries two empty label sets; the replay still issues the refine
call with those empty sets. -/
theorem replay_unconditional_witness :
    engineHas w9World.engine "s" = false ∧
      w9World.store.find? (fun r => r.sid == "s") =
        some ⟨"s", some [], some []⟩ ∧
      Event.putRefine "s" [] [] ∈ (results w9World "s" none none).events :=
  ⟨by decide, by decide,
    (replay_unconditional w9World "s" none none ⟨"s", some [], some []⟩
        (by decide) (by decide)).1 [] [] rfl rfl⟩

/-- C10: whenever the replay step cannot raise, the `results` endpoint queries
the engine exactly once, for the half-open window from `offset` to
`offset + limit`, with `offset` defaulting to 0 and `limit` defaulting to 20
when the parameters are absent. -/
theorem window_defaults (w : World) (psid : String) (poffset plimit : Option Int)
    (hsafe : noReplayError w psid = true) :
    (results w psid poffset plimit).events.filter isGetResultsEvent =
      [Event.getResults psid (poffset.getD 0) (poffset.getD 0 + plimit.getD 20)] := by
  by_cases hlive : engineHas w.engine psid = true
  · rw [results_live poffset plimit hlive]
    rcases fetchAndMerge_events w w.engine psid (poffset.getD 0) (plimit.getD 20)
      [Event.postSession psid] with ⟨rest, hev, hrest⟩
    rw [hev]
    refine filter_getResults_single ?_ (fun ev hm => (hrest ev hm).2)
    intro ev hmem
    rcases List.mem_singleton.mp hmem with rfl
    rfl
  · have habs : engineHas w.engine psid = false := by
      cases hb : engineHas w.engine psid
      · rfl
      · exact absurd hb hlive
    rcases noReplayError_elim hsafe habs with hf | ⟨sess, pos, neg, hf, hpos, hneg⟩
    · rw [results_absent_notfound poffset plimit habs hf]
      rcases fetchAndMerge_events w ⟨(psid, [], []) :: w.engine.sessions⟩ psid
          (poffset.getD 0) (plimit.getD 20) [Event.postSession psid] with ⟨rest, hev, hrest⟩
      rw [hev]
      refine filter_getResults_single ?_ (fun ev hm => (hrest ev hm).2)
      intro ev hmem
      rcases List.mem_singleton.mp hmem with rfl
      rfl
    · rw [results_absent_found poffset plimit habs hf hpos hneg]
      rcases fetchAndMerge_events w
          (putRefine ⟨(psid, [], []) :: w.engine.sessions⟩ psid pos neg) psid
          (poffset.getD 0) (plimit.getD 20)
          [Event.postSession psid, Event.postSession psid,
            Event.putRefine psid pos neg] with ⟨rest, hev, hrest⟩
      rw [hev]
      refine filter_getResults_single ?_ (fun ev hm => (hrest ev hm).2)
      intro ev hmem
      fin_cases hmem <;> rfl

/-- C10 (witness): the window theorem applied to a concrete environment with
both parameters absent, yielding the default window from 0 to 20. -/
theorem window_defaults_witness :
    noReplayError w10World "s" = true ∧
      (results w10World "s" none none).events.filter isGetResultsEvent =
        [Event.getResults "s" ((none : Option Int).getD 0)
          ((none : Option Int).getD 0 + (none : Option Int).getD 20)] :=
  ⟨by decide, window_defaults w10World "s" none none (by decide)⟩
